import Mathlib

/-!
Shallow embedding of src/todo.py (a frameless sticky-note to-do widget).

The to-do list is a Python list of dicts with keys "text" (str) and "done"
(bool).  Persistence goes through the CPython json module:
save uses json.dump(todos, f, ensure_ascii=False, indent=2) and load uses
json.load, returning [] when the data file is absent.  Both are modelled
here over List Char: dumpTodos reproduces json.dump's exact output for a
list of to-do items, and parse is a recursive-descent model of json.load
(JSON numbers are modelled as integers; the program's data never contains
fractional numbers).  List operations (add/edit/delete/toggle), the item
context-menu guard, the resize dialogs and the right-click routing are
modelled as pure functions on explicit state.
-/

namespace Todo

/-- JSON values as produced by json.load.  Numbers are modelled as integers:
the program only ever stores strings and booleans, so fractional numbers
never occur in its data files. -/
inductive Json where
  | null : Json
  | bool : Bool → Json
  | num : Int → Json
  | str : List Char → Json
  | arr : List Json → Json
  | obj : List (List Char × Json) → Json

/-- Opening curly brace character (written via its code point). -/
def lbrace : Char := Char.ofNat 123

/-- Closing curly brace character (written via its code point). -/
def rbrace : Char := Char.ofNat 125

/-- Lowercase hex digit for a value below 16, as printf %x produces. -/
def hexDigitChar (n : Nat) : Char :=
  if n < 10 then Char.ofNat (48 + n) else Char.ofNat (87 + n)

/-- Escape of one character by json.dump with ensure_ascii=False: only the
quote, the backslash and control characters below 0x20 are escaped; the
named short escapes are used where CPython uses them, \u00xx otherwise. -/
def escapeChar (c : Char) : List Char :=
  if c = '"' then ['\\', '"']
  else if c = '\\' then ['\\', '\\']
  else if c = '\n' then ['\\', 'n']
  else if c = '\r' then ['\\', 'r']
  else if c = '\t' then ['\\', 't']
  else if c = '\x08' then ['\\', 'b']
  else if c = '\x0c' then ['\\', 'f']
  else if c.toNat < 32 then
    ['\\', 'u', '0', '0', hexDigitChar (c.toNat / 16), hexDigitChar (c.toNat % 16)]
  else [c]

/-- Escape of a whole string by json.dump with ensure_ascii=False. -/
def escapeStr : List Char → List Char
  | [] => []
  | c :: r => escapeChar c ++ escapeStr r

/-- One to-do item: a Python dict with insertion order "text" then "done",
as built by TodoWidget.add. -/
structure TodoItem where
  text : List Char
  done : Bool
deriving DecidableEq

/-- JSON image of one to-do item (the dict json.load would return for it). -/
def TodoItem.toJson (it : TodoItem) : Json :=
  Json.obj [(['t', 'e', 'x', 't'], Json.str it.text),
            (['d', 'o', 'n', 'e'], Json.bool it.done)]

/-- JSON image of a whole to-do list. -/
def toJson (l : List TodoItem) : Json :=
  Json.arr (l.map TodoItem.toJson)

/-- Characters json.dump emits for a Python bool. -/
def boolChars (b : Bool) : List Char :=
  if b then ['t', 'r', 'u', 'e'] else ['f', 'a', 'l', 's', 'e']

/-- Characters from the opening brace of one item dict up to the opening
quote of the text value, at indent level 2 (json.dump, indent=2). -/
def itemOpen : List Char :=
  [lbrace, '\n', ' ', ' ', ' ', ' ', '"', 't', 'e', 'x', 't', '"', ':', ' ', '"']

/-- Characters between the text value's closing quote and the done value. -/
def itemMid : List Char :=
  ['"', ',', '\n', ' ', ' ', ' ', ' ', '"', 'd', 'o', 'n', 'e', '"', ':', ' ']

/-- Characters closing one item dict at indent level 2. -/
def itemClose : List Char := ['\n', ' ', ' ', rbrace]

/-- Characters json.dump(…, ensure_ascii=False, indent=2) emits for one
to-do item dict nested inside the top-level array. -/
def itemChars (it : TodoItem) : List Char :=
  itemOpen ++ escapeStr it.text ++ itemMid ++ boolChars it.done ++ itemClose

/-- Separator json.dump(…, indent=2) places between two array items at
indent level 1: a comma, a newline and two spaces. -/
def itemSep : List Char := [',', '\n', ' ', ' ']

/-- Items of the array joined by the item separator. -/
def joinItems : List TodoItem → List Char
  | [] => []
  | [it] => itemChars it
  | it :: rest => itemChars it ++ itemSep ++ joinItems rest

/-- Exact file contents written by TodoWidget.save, that is by
json.dump(self.todos, f, ensure_ascii=False, indent=2): the empty array
prints as [], a nonempty one opens with a bracket, newline and two spaces,
joins the items and closes with a newline and a bracket. -/
def dumpTodos (l : List TodoItem) : List Char :=
  match l with
  | [] => ['[', ']']
  | _ => ['[', '\n', ' ', ' '] ++ joinItems l ++ ['\n', ']']

/-- JSON whitespace characters. -/
def isWs (c : Char) : Bool :=
  c = ' ' || c = '\n' || c = '\t' || c = '\r'

/-- Drop leading JSON whitespace. -/
def skipWs : List Char → List Char
  | [] => []
  | c :: r => if isWs c then skipWs r else c :: r

/-- Numeric value of a hex digit as accepted inside a \uXXXX escape. -/
def hexVal (c : Char) : Option Nat :=
  if 48 ≤ c.toNat ∧ c.toNat ≤ 57 then some (c.toNat - 48)
  else if 97 ≤ c.toNat ∧ c.toNat ≤ 102 then some (c.toNat - 87)
  else if 65 ≤ c.toNat ∧ c.toNat ≤ 70 then some (c.toNat - 55)
  else none

/-- Character named by a single-letter JSON escape. -/
def unescapeChar (e : Char) : Option Char :=
  if e = '"' then some '"'
  else if e = '\\' then some '\\'
  else if e = '/' then some '/'
  else if e = 'b' then some '\x08'
  else if e = 'f' then some '\x0c'
  else if e = 'n' then some '\n'
  else if e = 'r' then some '\r'
  else if e = 't' then some '\t'
  else none

/-- Parse of a JSON string body after the opening quote, as json.load does
in strict mode: an unescaped control character below 0x20 is an error, a
backslash introduces a named escape or \uXXXX.  Returns the decoded
characters and the input after the closing quote. -/
def parseStringBody : List Char → Option (List Char × List Char)
  | [] => none
  | c :: r =>
    if c = '"' then some ([], r)
    else if c = '\\' then
      match r with
      | [] => none
      | e :: r2 =>
        if e = 'u' then
          match r2 with
          | a :: b :: c2 :: d :: r3 =>
            match hexVal a, hexVal b, hexVal c2, hexVal d with
            | some x, some y, some z, some w =>
              let n := ((x * 16 + y) * 16 + z) * 16 + w
              if n.isValidChar then
                match parseStringBody r3 with
                | some (t, r4) => some (Char.ofNat n :: t, r4)
                | none => none
              else none
            | _, _, _, _ => none
          | _ => none
        else
          match unescapeChar e with
          | some c2 =>
            match parseStringBody r2 with
            | some (t, r3) => some (c2 :: t, r3)
            | none => none
          | none => none
    else if c.toNat < 32 then none
    else
      match parseStringBody r with
      | some (t, r2) => some (c :: t, r2)
      | none => none

/-- Longest leading run of decimal digits. -/
def takeDigits : List Char → List Char × List Char
  | [] => ([], [])
  | c :: r =>
    if c.isDigit then
      let p := takeDigits r
      (c :: p.1, p.2)
    else ([], c :: r)

/-- Decimal value of a digit run, accumulator style. -/
def digitsToNat (acc : Nat) : List Char → Nat
  | [] => acc
  | c :: r => digitsToNat (acc * 10 + (c.toNat - 48)) r

/-- Parse of the integer part of a JSON number: a lone zero, or a nonzero
digit followed by more digits (JSON forbids leading zeros). -/
def parseIntPart : List Char → Option (Nat × List Char)
  | [] => none
  | c :: r =>
    if c = '0' then some (0, r)
    else if c.isDigit then
      let p := takeDigits r
      some (digitsToNat (c.toNat - 48) p.1, p.2)
    else none

/-- Parse of a JSON integer with optional leading minus sign. -/
def parseNum (s : List Char) : Option (Int × List Char) :=
  match s with
  | [] => none
  | c :: r =>
    if c = '-' then
      match parseIntPart r with
      | some (n, r2) => some (-(n : Int), r2)
      | none => none
    else
      match parseIntPart (c :: r) with
      | some (n, r2) => some ((n : Int), r2)
      | none => none

/-- Expect the given characters verbatim at the head of the input. -/
def stripTok : List Char → List Char → Option (List Char)
  | [], s => some s
  | _ :: _, [] => none
  | c :: p, x :: s => if x = c then stripTok p s else none

mutual

/-- Recursive-descent model of json.load's value parser.  The fuel bounds
the recursion depth; every recursive call spends one unit, and along any
call chain at least one input character is consumed per two units, so a
budget of the input length plus two is enough for every input json.load
itself accepts. -/
def parseVal : Nat → List Char → Option (Json × List Char)
  | 0, _ => none
  | fuel + 1, s =>
    match skipWs s with
    | [] => none
    | c :: r =>
      if c = '[' then
        match skipWs r with
        | [] => none
        | c2 :: r2 =>
          if c2 = ']' then some (Json.arr [], r2)
          else
            match parseArrayItems fuel r with
            | some (xs, r3) => some (Json.arr xs, r3)
            | none => none
      else if c = lbrace then
        match skipWs r with
        | [] => none
        | c2 :: r2 =>
          if c2 = rbrace then some (Json.obj [], r2)
          else
            match parseObjItems fuel r with
            | some (kvs, r3) => some (Json.obj kvs, r3)
            | none => none
      else if c = '"' then
        match parseStringBody r with
        | some (t, r2) => some (Json.str t, r2)
        | none => none
      else if c = 't' then
        match stripTok ['r', 'u', 'e'] r with
        | some r2 => some (Json.bool true, r2)
        | none => none
      else if c = 'f' then
        match stripTok ['a', 'l', 's', 'e'] r with
        | some r2 => some (Json.bool false, r2)
        | none => none
      else if c = 'n' then
        match stripTok ['u', 'l', 'l'] r with
        | some r2 => some (Json.null, r2)
        | none => none
      else
        match parseNum (c :: r) with
        | some (n, r2) => some (Json.num n, r2)
        | none => none

/-- Items of a nonempty JSON array after the opening bracket. -/
def parseArrayItems : Nat → List Char → Option (List Json × List Char)
  | 0, _ => none
  | fuel + 1, s =>
    match parseVal fuel s with
    | some (j, r) =>
      match skipWs r with
      | [] => none
      | c :: r2 =>
        if c = ',' then
          match parseArrayItems fuel r2 with
          | some (xs, r3) => some (j :: xs, r3)
          | none => none
        else if c = ']' then some ([j], r2)
        else none
    | none => none

/-- Members of a nonempty JSON object after the opening brace. -/
def parseObjItems : Nat → List Char → Option (List (List Char × Json) × List Char)
  | 0, _ => none
  | fuel + 1, s =>
    match skipWs s with
    | [] => none
    | c :: r =>
      if c = '"' then
        match parseStringBody r with
        | some (k, r2) =>
          match skipWs r2 with
          | [] => none
          | c2 :: r3 =>
            if c2 = ':' then
              match parseVal fuel r3 with
              | some (v, r4) =>
                match skipWs r4 with
                | [] => none
                | c3 :: r5 =>
                  if c3 = ',' then
                    match parseObjItems fuel r5 with
                    | some (kvs, r6) => some ((k, v) :: kvs, r6)
                    | none => none
                  else if c3 = rbrace then some ([(k, v)], r5)
                  else none
              | none => none
            else none
        | none => none
      else none

end

/-- Model of json.load on full file contents: one JSON value, then only
whitespace may remain (anything else is CPython's Extra data error). -/
def parse (s : List Char) : Option Json :=
  match parseVal (s.length + 2) s with
  | some (j, r) =>
    match skipWs r with
    | [] => some j
    | _ => none
  | none => none

/-- State of the data file: absent, or present with these characters. -/
def FileState := Option (List Char)

/-- TodoWidget.load: returns [] when the data file does not exist, and
otherwise hands the contents to json.load, whose parse error is not
caught anywhere and so propagates out of the constructor. -/
def load (file : Option (List Char)) : Except (List Char) Json :=
  match file with
  | none => Except.ok (Json.arr [])
  | some s =>
    match parse s with
    | some j => Except.ok j
    | none => Except.error ['J', 'S', 'O', 'N', 'D', 'e', 'c', 'o', 'd', 'e', 'E', 'r', 'r', 'o', 'r']

/-- TodoWidget.save: opens the data file for writing, truncating it, and
writes json.dump of the current list; the previous contents are ignored. -/
def save (todos : List TodoItem) (_file : Option (List Char)) : Option (List Char) :=
  some (dumpTodos todos)

/-- TodoWidget.add: QInputDialog.getText returns a text and an ok flag
(none models a cancelled dialog); only when ok holds and the text is
truthy, that is nonempty, is the new item appended with done set to False. -/
def add (todos : List TodoItem) (dialog : Option (List Char)) : List TodoItem :=
  match dialog with
  | some t => if t = [] then todos else todos ++ [⟨t, false⟩]
  | none => todos

/-- In-place update of the element at a valid index, as Python's
subscript assignment does; an out-of-range index raises IndexError in
Python, and the theorems below only speak of in-range indices. -/
def modifyIdx (l : List TodoItem) (i : Nat) (f : TodoItem → TodoItem) : List TodoItem :=
  match l, i with
  | [], _ => []
  | x :: xs, 0 => f x :: xs
  | x :: xs, n + 1 => x :: modifyIdx xs n f

/-- TodoWidget.edit: QInputDialog.getText prefilled with the current text;
when ok holds the text field of item i is overwritten (also by the empty
string, there is no truthiness test here), when cancelled nothing happens. -/
def edit (todos : List TodoItem) (i : Nat) (dialog : Option (List Char)) : List TodoItem :=
  match dialog with
  | some t => modifyIdx todos i (fun it => { it with text := t })
  | none => todos

/-- TodoWidget.toggle: self.todos[i]["done"] ^= True, an exclusive-or with
True, which on a boolean is negation. -/
def toggle (todos : List TodoItem) (i : Nat) : List TodoItem :=
  modifyIdx todos i (fun it => { it with done := xor it.done true })

/-- Removal of the element at a valid index, as Python's list.pop(i). -/
def popIdx (l : List TodoItem) (i : Nat) : List TodoItem :=
  match l, i with
  | [], _ => []
  | _ :: xs, 0 => xs
  | x :: xs, n + 1 => x :: popIdx xs n

/-- TodoWidget.delete: self.todos.pop(i). -/
def delete (todos : List TodoItem) (i : Nat) : List TodoItem :=
  popIdx todos i

/-- TodoWidget.item_menu's guard: idx is self.list.currentRow(), which is
-1 when no row is selected; the handler returns without opening a menu
when idx < 0, and otherwise every menu action targets exactly idx. -/
def item_menu (currentRow : Int) : Option Nat :=
  if currentRow < 0 then none else some currentRow.toNat

/-- Window width and height. -/
structure WinSize where
  w : Int
  h : Int
deriving DecidableEq

/-- QInputDialog.getInt with min=200 and max=800: the dialog's spin box
keeps the returned value inside the range whatever is typed. -/
def clampDialog (v : Int) : Int := max 200 (min 800 v)

/-- QInputDialog.getInt outcome for an entered value: none when the dialog
is cancelled, otherwise the entered value constrained to [200, 800]. -/
def getIntDialog (entered : Option Int) : Option Int :=
  entered.map clampDialog

/-- TodoWidget.change_size: asks for a width and then a height, each
through getIntDialog; if either dialog is cancelled the method returns
before resizing (when the width dialog is cancelled the height dialog is
never shown), and only when both confirm does self.resize(w, h) run. -/
def change_size (size : WinSize) (e1 e2 : Option Int) : WinSize :=
  match getIntDialog e1 with
  | none => size
  | some w =>
    match getIntDialog e2 with
    | none => size
    | some h => ⟨w, h⟩

/-- A point in window coordinates. -/
structure Pt where
  x : Int
  y : Int
deriving DecidableEq

/-- A rectangle as QRect: position plus extent, containing the points
whose coordinates lie from the origin up to width or height minus one
(QRect.contains is inclusive of its bottom-right corner). -/
structure Rect where
  x : Int
  y : Int
  w : Int
  h : Int
deriving DecidableEq

/-- QRect.contains for a point. -/
def Rect.containsPt (r : Rect) (p : Pt) : Bool :=
  decide (r.x ≤ p.x) && decide (p.x < r.x + r.w) &&
  decide (r.y ≤ p.y) && decide (p.y < r.y + r.h)

/-- BlankAreaFilter.eventFilter's firing condition for an event delivered
to the widget it is installed on: a mouse press, with the right button,
whose position lies in the widget's own rect. -/
def eventFilterFires (widgetRect : Rect) (isPress isRightButton : Bool) (pos : Pt) : Bool :=
  isPress && isRightButton && widgetRect.containsPt pos

/-- Outcome of a right-button press: which context menu opens, if any. -/
inductive MenuResult where
  | blankMenu : MenuResult
  | itemMenu : Nat → MenuResult
  | noMenu : MenuResult
deriving DecidableEq

/-- Modelled from the spec: Qt delivers a mouse press to the child widget
under the cursor, so a press inside the list's geometry goes to the list
(whose custom context-menu policy fires item_menu) and never reaches the
event filter installed on the window; a press on the window outside the
list goes to the window and through the filter.  On the list, a press on
a row makes that row current before the context-menu signal fires;
elsewhere on the list the current row keeps its previous value (-1 when
nothing was ever selected). -/
def rightClickDispatch (widgetRect listRect : Rect) (rowAt : Option Nat)
    (prevRow : Int) (pos : Pt) : MenuResult :=
  if listRect.containsPt pos then
    match item_menu (match rowAt with | some r => (r : Int) | none => prevRow) with
    | some r => MenuResult.itemMenu r
    | none => MenuResult.noMenu
  else
    if eventFilterFires widgetRect true true pos then MenuResult.blankMenu
    else MenuResult.noMenu

/-! Stepping lemmas for the string parser. -/

theorem parseStringBody_close (X : List Char) :
    parseStringBody ('"' :: X) = some ([], X) := by
  rw [parseStringBody.eq_def]
  simp

theorem parseStringBody_plain (c : Char) (X : List Char)
    (h1 : c ≠ '"') (h2 : c ≠ '\\') (h3 : ¬ c.toNat < 32) :
    parseStringBody (c :: X) =
      match parseStringBody X with
      | some (t, r2) => some (c :: t, r2)
      | none => none := by
  rw [parseStringBody.eq_def]
  simp [h1, h2, h3]

theorem parseStringBody_bs (e c2 : Char) (X : List Char)
    (hu : e ≠ 'u') (he : unescapeChar e = some c2) :
    parseStringBody ('\\' :: e :: X) =
      match parseStringBody X with
      | some (t, r2) => some (c2 :: t, r2)
      | none => none := by
  rw [parseStringBody.eq_def]
  simp [hu, he]

theorem parseStringBody_u (a b c2 d : Char) (x y z w : Nat) (X : List Char)
    (ha : hexVal a = some x) (hb : hexVal b = some y)
    (hc : hexVal c2 = some z) (hd : hexVal d = some w)
    (hv : (((x * 16 + y) * 16 + z) * 16 + w).isValidChar) :
    parseStringBody ('\\' :: 'u' :: a :: b :: c2 :: d :: X) =
      match parseStringBody X with
      | some (t, r4) => some (Char.ofNat (((x * 16 + y) * 16 + z) * 16 + w) :: t, r4)
      | none => none := by
  rw [parseStringBody.eq_def]
  simp [ha, hb, hc, hd, hv]

theorem hexVal_hexDigitChar (n : Nat) (h : n < 16) :
    hexVal (hexDigitChar n) = some n := by
  interval_cases n <;> decide

/-- Unescaping is a left inverse of json.dump's escaping: the string parser
recovers exactly the original characters of a text and stops at the first
quote that follows the escaped form. -/
theorem parseStringBody_escape (t rest : List Char) :
    parseStringBody (escapeStr t ++ '"' :: rest) = some (t, rest) := by
  induction t with
  | nil => simpa [escapeStr] using parseStringBody_close rest
  | cons c t ih =>
    show parseStringBody ((escapeChar c ++ escapeStr t) ++ '"' :: rest) = _
    rw [List.append_assoc]
    by_cases h1 : c = '"'
    · subst h1
      rw [show escapeChar '"' = ['\\', '"'] from rfl]
      rw [List.cons_append, List.cons_append, List.nil_append]
      rw [parseStringBody_bs '"' '"' _ (by decide) (by decide), ih]
    by_cases h2 : c = '\\'
    · subst h2
      rw [show escapeChar '\\' = ['\\', '\\'] from rfl]
      rw [List.cons_append, List.cons_append, List.nil_append]
      rw [parseStringBody_bs '\\' '\\' _ (by decide) (by decide), ih]
    by_cases h3 : c = '\n'
    · subst h3
      rw [show escapeChar '\n' = ['\\', 'n'] from rfl]
      rw [List.cons_append, List.cons_append, List.nil_append]
      rw [parseStringBody_bs 'n' '\n' _ (by decide) (by decide), ih]
    by_cases h4 : c = '\r'
    · subst h4
      rw [show escapeChar '\r' = ['\\', 'r'] from rfl]
      rw [List.cons_append, List.cons_append, List.nil_append]
      rw [parseStringBody_bs 'r' '\r' _ (by decide) (by decide), ih]
    by_cases h5 : c = '\t'
    · subst h5
      rw [show escapeChar '\t' = ['\\', 't'] from rfl]
      rw [List.cons_append, List.cons_append, List.nil_append]
      rw [parseStringBody_bs 't' '\t' _ (by decide) (by decide), ih]
    by_cases h6 : c = '\x08'
    · subst h6
      rw [show escapeChar '\x08' = ['\\', 'b'] from rfl]
      rw [List.cons_append, List.cons_append, List.nil_append]
      rw [parseStringBody_bs 'b' '\x08' _ (by decide) (by decide), ih]
    by_cases h7 : c = '\x0c'
    · subst h7
      rw [show escapeChar '\x0c' = ['\\', 'f'] from rfl]
      rw [List.cons_append, List.cons_append, List.nil_append]
      rw [parseStringBody_bs 'f' '\x0c' _ (by decide) (by decide), ih]
    by_cases h8 : c.toNat < 32
    · have he : escapeChar c =
          ['\\', 'u', '0', '0', hexDigitChar (c.toNat / 16), hexDigitChar (c.toNat % 16)] := by
        simp [escapeChar, h1, h2, h3, h4, h5, h6, h7, h8]
      rw [he]
      simp only [List.cons_append, List.nil_append]
      have harith : ((0 * 16 + 0) * 16 + c.toNat / 16) * 16 + c.toNat % 16 = c.toNat := by
        omega
      rw [parseStringBody_u '0' '0' (hexDigitChar (c.toNat / 16)) (hexDigitChar (c.toNat % 16))
        0 0 (c.toNat / 16) (c.toNat % 16) _ (by decide) (by decide)
        (hexVal_hexDigitChar _ (by omega)) (hexVal_hexDigitChar _ (by omega))
        (by rw [harith]; exact Or.inl (by omega))]
      rw [ih, harith, Char.ofNat_toNat]
    · have he : escapeChar c = [c] := by
        simp [escapeChar, h1, h2, h3, h4, h5, h6, h7, h8]
      rw [he]
      rw [List.cons_append, List.nil_append]
      rw [parseStringBody_plain c _ h1 h2 h8, ih]

/-! Character facts about the brace constants, kept as named lemmas so the
braces themselves never get unfolded inside larger rewrites. -/

theorem isWs_lbrace : isWs lbrace = false := by decide

theorem isWs_rbrace : isWs rbrace = false := by decide

theorem lbrace_ne_lbracket : ¬ (lbrace = '[') := by decide

theorem lbrace_ne_rbracket : ¬ (lbrace = ']') := by decide

theorem quote_ne_rbrace : ¬ (('"' : Char) = rbrace) := by decide

theorem rbrace_ne_comma : ¬ (rbrace = ',') := by decide

theorem lbrace_ne_space : ¬ (lbrace = ' ') := by decide

theorem lbrace_ne_nl : ¬ (lbrace = '\n') := by decide

theorem lbrace_ne_tab : ¬ (lbrace = '\t') := by decide

theorem lbrace_ne_cr : ¬ (lbrace = '\x0d') := by decide

theorem rbrace_ne_space : ¬ (rbrace = ' ') := by decide

theorem rbrace_ne_nl : ¬ (rbrace = '\n') := by decide

theorem rbrace_ne_tab : ¬ (rbrace = '\t') := by decide

theorem rbrace_ne_cr : ¬ (rbrace = '\x0d') := by decide

/-! Stepping lemmas for the value parser on the exact shapes json.dump
produces for a to-do list. -/

theorem psb_textKey (Y : List Char) :
    parseStringBody ('t' :: 'e' :: 'x' :: 't' :: '"' :: Y) = some (['t', 'e', 'x', 't'], Y) := by
  have h := parseStringBody_escape ['t', 'e', 'x', 't'] Y
  rwa [show escapeStr ['t', 'e', 'x', 't'] = ['t', 'e', 'x', 't'] from rfl] at h

theorem psb_doneKey (Y : List Char) :
    parseStringBody ('d' :: 'o' :: 'n' :: 'e' :: '"' :: Y) = some (['d', 'o', 'n', 'e'], Y) := by
  have h := parseStringBody_escape ['d', 'o', 'n', 'e'] Y
  rwa [show escapeStr ['d', 'o', 'n', 'e'] = ['d', 'o', 'n', 'e'] from rfl] at h

theorem parseVal_ws (g : Nat) (w : Char) (Y : List Char) (hw : isWs w = true) :
    parseVal (g + 1) (w :: Y) = parseVal (g + 1) Y := by
  rw [parseVal, parseVal]
  rw [show skipWs (w :: Y) = skipWs Y from by rw [skipWs.eq_def]; simp [hw]]

theorem parseVal_textVal (g : Nat) (tx Z : List Char) :
    parseVal (g + 1) (' ' :: '"' :: (escapeStr tx ++ '"' :: Z)) = some (Json.str tx, Z) := by
  rw [parseVal]
  simp [skipWs, isWs, lbrace, parseStringBody_escape]

theorem parseVal_boolVal (g : Nat) (b : Bool) (Z : List Char) :
    parseVal (g + 1) (' ' :: (boolChars b ++ Z)) = some (Json.bool b, Z) := by
  cases b <;>
    (rw [parseVal]; simp [skipWs, isWs, lbrace, boolChars, stripTok])

theorem parseObjItems_done (f : Nat) (b : Bool) (X : List Char) :
    parseObjItems (f + 2)
      ('\n' :: ' ' :: ' ' :: ' ' :: ' ' :: '"' :: 'd' :: 'o' :: 'n' :: 'e' :: '"' :: ':' :: ' ' ::
        (boolChars b ++ ('\n' :: ' ' :: ' ' :: rbrace :: X))) =
      some ([(['d', 'o', 'n', 'e'], Json.bool b)], X) := by
  rw [parseObjItems]
  simp [skipWs, isWs, psb_doneKey, parseVal_boolVal, rbrace_ne_comma,
    rbrace_ne_space, rbrace_ne_nl, rbrace_ne_tab, rbrace_ne_cr]

theorem parseObjItems_item (f : Nat) (tx : List Char) (b : Bool) (X : List Char) :
    parseObjItems (f + 3)
      ('\n' :: ' ' :: ' ' :: ' ' :: ' ' :: '"' :: 't' :: 'e' :: 'x' :: 't' :: '"' :: ':' :: ' ' :: '"' ::
        (escapeStr tx ++
          ('"' :: ',' :: '\n' :: ' ' :: ' ' :: ' ' :: ' ' :: '"' :: 'd' :: 'o' :: 'n' :: 'e' :: '"' :: ':' :: ' ' ::
            (boolChars b ++ ('\n' :: ' ' :: ' ' :: rbrace :: X))))) =
      some ([(['t', 'e', 'x', 't'], Json.str tx), (['d', 'o', 'n', 'e'], Json.bool b)], X) := by
  rw [parseObjItems]
  simp [skipWs, isWs, psb_textKey, parseVal_textVal, parseObjItems_done]

theorem parseVal_item (f : Nat) (it : TodoItem) (X : List Char) :
    parseVal (f + 4) (itemChars it ++ X) = some (TodoItem.toJson it, X) := by
  obtain ⟨tx, b⟩ := it
  simp only [itemChars, itemOpen, itemMid, itemClose, List.cons_append, List.append_assoc,
    List.nil_append]
  rw [parseVal]
  simp [skipWs, isWs, lbrace_ne_lbracket, quote_ne_rbrace, parseObjItems_item,
    lbrace_ne_space, lbrace_ne_nl, lbrace_ne_tab, lbrace_ne_cr, TodoItem.toJson]

/-- The array-items loop consumes the joined items and the closing newline
and bracket, returning the items' JSON images in order.  The fuel only
needs to exceed the item count by a constant, since the loop spends one
unit per item and four units inside each item. -/
theorem parseArrayItems_go (l : List TodoItem) (hl : l ≠ []) (f : Nat) (X : List Char) :
    parseArrayItems (l.length + f + 5)
      ('\n' :: ' ' :: ' ' :: (joinItems l ++ '\n' :: ']' :: X)) =
      some (l.map TodoItem.toJson, X) := by
  induction l with
  | nil => exact absurd rfl hl
  | cons it rest ih =>
    cases rest with
    | nil =>
      simp only [joinItems, List.cons_append, List.append_assoc, List.nil_append]
      rw [parseArrayItems]
      rw [parseVal_ws _ '\n' _ (by decide), parseVal_ws _ ' ' _ (by decide),
        parseVal_ws _ ' ' _ (by decide)]
      rw [parseVal_item]
      simp [skipWs, isWs]
    | cons it2 rest2 =>
      simp only [joinItems, itemSep, List.cons_append, List.append_assoc, List.nil_append]
      rw [parseArrayItems]
      rw [parseVal_ws _ '\n' _ (by decide), parseVal_ws _ ' ' _ (by decide),
        parseVal_ws _ ' ' _ (by decide)]
      rw [parseVal_item]
      have hfe : (it :: it2 :: rest2).length + f + 4 = (it2 :: rest2).length + f + 5 := by
        simp [List.length_cons]; omega
      rw [hfe]
      have ih2 := ih (by simp)
      simp only [List.length_cons] at ih2
      simp [skipWs, isWs, ih2]

theorem boolChars_length (b : Bool) : 4 ≤ (boolChars b).length := by
  cases b <;> decide

theorem itemChars_length (it : TodoItem) : 38 ≤ (itemChars it).length := by
  have hb := boolChars_length it.done
  simp [itemChars, itemOpen, itemMid, itemClose, List.length_append]
  omega

/-- Every item occupies far more characters in the dump than the one unit
of loop fuel it costs, so the parser's length-based fuel is ample. -/
theorem joinItems_length (l : List TodoItem) (hl : l ≠ []) :
    5 * l.length ≤ (joinItems l).length := by
  induction l with
  | nil => exact absurd rfl hl
  | cons it rest ih =>
    cases rest with
    | nil =>
      have h := itemChars_length it
      simp [joinItems]
      omega
    | cons it2 rest2 =>
      have h := itemChars_length it
      have h2 := ih (by simp)
      simp only [joinItems, itemSep, List.length_append, List.length_cons] at *
      omega

theorem joinItems_head (l : List TodoItem) (hl : l ≠ []) :
    ∃ T, joinItems l = lbrace :: T := by
  cases l with
  | nil => exact absurd rfl hl
  | cons it rest =>
    cases rest with
    | nil =>
      refine ⟨'\n' :: ' ' :: ' ' :: ' ' :: ' ' :: '"' :: 't' :: 'e' :: 'x' :: 't' :: '"' ::
        ':' :: ' ' :: '"' ::
        (escapeStr it.text ++ (itemMid ++ (boolChars it.done ++ itemClose))), ?_⟩
      simp [joinItems, itemChars, itemOpen]
    | cons it2 rest2 =>
      refine ⟨'\n' :: ' ' :: ' ' :: ' ' :: ' ' :: '"' :: 't' :: 'e' :: 'x' :: 't' :: '"' ::
        ':' :: ' ' :: '"' ::
        (escapeStr it.text ++
          (itemMid ++ (boolChars it.done ++ (itemClose ++ (itemSep ++ joinItems (it2 :: rest2)))))), ?_⟩
      simp [joinItems, itemChars, itemOpen]

/-- Round trip at the JSON-text level: parsing the exact characters that
json.dump wrote for a to-do list yields that list's JSON image. -/
theorem parse_dumpTodos (l : List TodoItem) : parse (dumpTodos l) = some (toJson l) := by
  cases l with
  | nil => exact rfl
  | cons it rest =>
    have hlen : 5 * (it :: rest).length ≤ (joinItems (it :: rest)).length :=
      joinItems_length _ (by simp)
    obtain ⟨T, hT⟩ := joinItems_head (it :: rest) (by simp)
    have hd : dumpTodos (it :: rest) =
        '[' :: '\n' :: ' ' :: ' ' ::
          (joinItems (it :: rest) ++ '\n' :: ']' :: ([] : List Char)) := by
      simp [dumpTodos]
    rw [hd]
    simp only [parse]
    rw [parseVal]
    have hskip : skipWs (joinItems (it :: rest) ++ '\n' :: ']' :: ([] : List Char)) =
        lbrace :: (T ++ '\n' :: ']' :: ([] : List Char)) := by
      rw [hT]
      rw [List.cons_append, skipWs.eq_def]
      simp [isWs, lbrace_ne_space, lbrace_ne_nl, lbrace_ne_tab, lbrace_ne_cr]
    obtain ⟨F, hF⟩ : ∃ F, ('[' :: '\n' :: ' ' :: ' ' ::
          (joinItems (it :: rest) ++ '\n' :: ']' :: ([] : List Char))).length + 1 =
        (it :: rest).length + F + 5 := by
      refine ⟨((joinItems (it :: rest)).length + 2) - (it :: rest).length, ?_⟩
      have hlen2 : 5 * (rest.length + 1) ≤ (joinItems (it :: rest)).length := by
        simpa using hlen
      simp only [List.length_cons, List.length_append, List.length_nil]
      omega
    rw [hF]
    have hgo := parseArrayItems_go (it :: rest) (by simp) F ([] : List Char)
    simp only [List.length_cons] at hgo
    simp [skipWs, isWs, hskip, lbrace_ne_rbracket, hgo, toJson]

/-- Two distinct to-do lists have distinct JSON images, so the JSON value
load returns determines the list uniquely. -/
theorem toJson_injective (l1 l2 : List TodoItem) (h : toJson l1 = toJson l2) : l1 = l2 := by
  have hinj : Function.Injective TodoItem.toJson := by
    intro a b hab
    cases a
    cases b
    simpa [TodoItem.toJson] using hab
  simp only [toJson, Json.arr.injEq] at h
  exact List.map_injective_iff.mpr hinj h

theorem popIdx_eq (l : List TodoItem) (i : Nat) (hi : i < l.length) :
    popIdx l i = l.take i ++ l.drop (i + 1) := by
  induction l generalizing i with
  | nil => simp at hi
  | cons a as ih =>
    cases i with
    | zero => simp [popIdx]
    | succ n =>
      simp only [popIdx, List.take_succ_cons, List.drop_succ_cons, List.cons_append]
      exact congrArg (a :: ·) (ih n (by simpa using hi))

/-! Claim theorems. -/

/-- C1: for every list of to-do items with arbitrary text strings and
boolean done flags, saving the list and then loading the file returns a
value equal to the list's JSON image (order and both fields preserved),
and that image determines the list uniquely. -/
theorem c1_save_load_roundtrip (l : List TodoItem) (file : Option (List Char)) :
    load (save l file) = Except.ok (toJson l) ∧
    (∀ l1 l2 : List TodoItem, toJson l1 = toJson l2 → l1 = l2) := by
  refine ⟨?_, fun l1 l2 => toJson_injective l1 l2⟩
  simp [save, load, parse_dumpTodos]

theorem c1_witness :
    load (save [⟨['a'], true⟩] none) = Except.ok (toJson [⟨['a'], true⟩]) ∧
    ([⟨['a'], false⟩] : List TodoItem) = [⟨['a'], false⟩] :=
  ⟨(c1_save_load_roundtrip [⟨['a'], true⟩] none).1,
   (c1_save_load_roundtrip [⟨['a'], true⟩] none).2 [⟨['a'], false⟩] [⟨['a'], false⟩] rfl⟩

/-- C2: add with a confirmed nonempty text appends exactly one item with
that text and done set to false at the end of the list; a cancelled
dialog or a confirmed empty text leaves the list unchanged. -/
theorem c2_add_spec (todos : List TodoItem) (t : List Char) (ht : t ≠ []) :
    add todos (some t) = todos ++ [⟨t, false⟩] ∧
    add todos none = todos ∧
    add todos (some []) = todos := by
  refine ⟨?_, rfl, rfl⟩
  simp [add, ht]

theorem c2_witness :
    add [] (some ['a']) = [⟨['a'], false⟩] ∧ add [] none = [] ∧ add [] (some []) = [] :=
  c2_add_spec [] ['a'] (by decide)

/-- C3: edit at a valid index with a confirmed text (the empty text
included) replaces exactly item i's text, keeping its done flag and every
other item; a cancelled dialog leaves the whole list unchanged. -/
theorem c3_edit_spec (todos : List TodoItem) (i : Nat) (t : List Char) (it : TodoItem)
    (hit : todos.get? i = some it) :
    edit todos i (some t) =
      todos.take i ++ (⟨t, it.done⟩ : TodoItem) :: todos.drop (i + 1) ∧
    edit todos i none = todos := by
  refine ⟨?_, rfl⟩
  induction todos generalizing i with
  | nil => simp at hit
  | cons a as ih =>
    cases i with
    | zero =>
      obtain rfl : a = it := by simpa using hit
      simp [edit, modifyIdx]
    | succ n =>
      have h2 := ih n (by simpa using hit)
      simp only [edit] at h2
      simp only [edit, modifyIdx, List.take_succ_cons, List.drop_succ_cons, List.cons_append]
      exact congrArg (a :: ·) h2

theorem c3_witness :
    edit [⟨['a'], true⟩] 0 (some []) = [⟨[], true⟩] ∧
    edit [⟨['a'], true⟩] 0 none = [⟨['a'], true⟩] := by
  have h := c3_edit_spec [⟨['a'], true⟩] 0 [] ⟨['a'], true⟩ rfl
  exact ⟨by simpa using h.1, h.2⟩

/-- C4: toggling an item at a valid index twice restores the list exactly,
since xor with True on a boolean is negation. -/
theorem c4_toggle_involution (todos : List TodoItem) (i : Nat) (hi : i < todos.length) :
    toggle (toggle todos i) i = todos := by
  induction todos generalizing i with
  | nil => simp at hi
  | cons a as ih =>
    cases i with
    | zero =>
      cases a
      simp [toggle, modifyIdx]
    | succ n =>
      have h2 := ih n (by simpa using hi)
      simp only [toggle] at h2
      simp only [toggle, modifyIdx]
      exact congrArg (a :: ·) h2

theorem c4_witness :
    toggle (toggle [⟨['a'], false⟩] 0) 0 = [⟨['a'], false⟩] :=
  c4_toggle_involution [⟨['a'], false⟩] 0 (by decide)

/-- C5: delete at a valid index removes exactly the item at that index,
shortens the list by one and keeps all other items in relative order; the
item menu performs no action when no row is selected (currentRow below
zero) and otherwise targets exactly the current row. -/
theorem c5_delete_spec (todos : List TodoItem) (i : Nat) (hi : i < todos.length) :
    delete todos i = todos.take i ++ todos.drop (i + 1) ∧
    (delete todos i).length = todos.length - 1 ∧
    (∀ r : Int, r < 0 → item_menu r = none) ∧
    (∀ r : Int, 0 ≤ r → item_menu r = some r.toNat) := by
  refine ⟨popIdx_eq todos i hi, ?_, ?_, ?_⟩
  · rw [show delete todos i = todos.take i ++ todos.drop (i + 1) from popIdx_eq todos i hi]
    simp [List.length_take, List.length_drop]
    omega
  · intro r hr
    simp [item_menu, hr]
  · intro r hr
    have h2 : ¬ r < 0 := by omega
    simp [item_menu, h2]

theorem c5_witness :
    delete [⟨['a'], false⟩, ⟨['b'], true⟩] 1 = [⟨['a'], false⟩] ∧
    item_menu (-1) = none ∧
    item_menu 1 = some 1 := by
  have h := c5_delete_spec [⟨['a'], false⟩, ⟨['b'], true⟩] 1 (by decide)
  exact ⟨by simpa using h.1, h.2.2.1 (-1) (by decide), by simpa using h.2.2.2 1 (by decide)⟩

/-- C6: load returns the empty list when the data file is absent, and when
the file's contents do not parse as JSON the decode error is not caught,
so load surfaces it (the widget's constructor has no handler around it). -/
theorem c6_load_missing_malformed :
    load none = Except.ok (Json.arr []) ∧
    (∀ s, parse s = none → ∃ e, load (some s) = Except.error e) ∧
    parse ['['] = none := by
  refine ⟨rfl, ?_, rfl⟩
  intro s h
  refine ⟨['J', 'S', 'O', 'N', 'D', 'e', 'c', 'o', 'd', 'e', 'E', 'r', 'r', 'o', 'r'], ?_⟩
  simp [load, h]

theorem c6_witness :
    load none = Except.ok (Json.arr []) ∧ ∃ e, load (some ['[']) = Except.error e :=
  ⟨c6_load_missing_malformed.1,
   c6_load_missing_malformed.2.1 ['['] c6_load_missing_malformed.2.2⟩

/-- C7: the resize flow prompts for a width and a height, each constrained
to the range 200 to 800 by the input dialog; cancelling either prompt
leaves the window size unchanged, and only double confirmation resizes to
the entered (dialog-constrained) values. -/
theorem c7_change_size_spec (size : WinSize) (e2 : Option Int) (wv hv : Int) :
    change_size size none e2 = size ∧
    change_size size (some wv) none = size ∧
    change_size size (some wv) (some hv) = ⟨clampDialog wv, clampDialog hv⟩ ∧
    200 ≤ clampDialog wv ∧ clampDialog wv ≤ 800 ∧
    200 ≤ clampDialog hv ∧ clampDialog hv ≤ 800 := by
  refine ⟨rfl, rfl, rfl, ?_, ?_, ?_, ?_⟩ <;> · simp only [clampDialog]; omega

/-- C8: saving twice in a row with the same list writes byte-identical
file contents both times, whatever the file held before. -/
theorem c8_save_idempotent (todos : List TodoItem) (f1 f2 : Option (List Char)) :
    save todos (save todos f1) = save todos f1 ∧ save todos f1 = save todos f2 :=
  ⟨rfl, rfl⟩

/-- C9: a right-button press inside the window opens the blank-area menu
exactly when it is outside the list's geometry, and a press on a list row
opens the item menu for that row. -/
theorem c9_rightclick_dispatch (widgetRect listRect : Rect) (rowAt : Option Nat)
    (prevRow : Int) (pos : Pt) (hin : widgetRect.containsPt pos = true) :
    (rightClickDispatch widgetRect listRect rowAt prevRow pos = MenuResult.blankMenu ↔
      listRect.containsPt pos = false) ∧
    (∀ r : Nat, listRect.containsPt pos = true → rowAt = some r →
      rightClickDispatch widgetRect listRect rowAt prevRow pos = MenuResult.itemMenu r) := by
  constructor
  · constructor
    · intro h
      by_cases hc : listRect.containsPt pos = true
      · exfalso
        simp only [rightClickDispatch, hc, if_true] at h
        split at h <;> simp_all
      · simpa using hc
    · intro h
      simp [rightClickDispatch, h, eventFilterFires, hin]
  · intro r hl hr
    have h2 : ¬ ((r : Int) < 0) := by omega
    simp [rightClickDispatch, hl, hr, item_menu, h2]

theorem c9_witness :
    rightClickDispatch ⟨0, 0, 300, 400⟩ ⟨10, 10, 280, 380⟩ (some 2) (-1) ⟨50, 50⟩ =
      MenuResult.itemMenu 2 ∧
    rightClickDispatch ⟨0, 0, 300, 400⟩ ⟨10, 10, 280, 380⟩ none (-1) ⟨5, 5⟩ =
      MenuResult.blankMenu := by
  have h1 := c9_rightclick_dispatch ⟨0, 0, 300, 400⟩ ⟨10, 10, 280, 380⟩ (some 2) (-1) ⟨50, 50⟩
    (by decide)
  have h2 := c9_rightclick_dispatch ⟨0, 0, 300, 400⟩ ⟨10, 10, 280, 380⟩ none (-1) ⟨5, 5⟩
    (by decide)
  exact ⟨h1.2 2 (by decide) rfl, h2.1.mpr (by decide)⟩

/-- C10: load hands back whatever JSON value the file parses to, without
validating that it is a list of text/done objects: a bare number, a string
or an object are all accepted as the in-memory value. -/
theorem c10_load_no_validation :
    (∀ s j, parse s = some j → load (some s) = Except.ok j) ∧
    load (some ['5']) = Except.ok (Json.num 5) ∧
    load (some ['"', 'x', '"']) = Except.ok (Json.str ['x']) ∧
    load (some [lbrace, rbrace]) = Except.ok (Json.obj []) := by
  refine ⟨?_, rfl, rfl, rfl⟩
  intro s j h
  simp [load, h]

theorem c10_witness :
    load (some ['n', 'u', 'l', 'l']) = Except.ok Json.null :=
  c10_load_no_validation.1 ['n', 'u', 'l', 'l'] Json.null rfl

end Todo
